import Mathlib

/-!
Verification of the rating engine of `rate_poems.py` (haiku-books).

The Python module keeps a corpus of poems, each carrying mutable ELO rating
state, selects pairs of poems, asks an external judge for a verdict, and
applies an ELO update plus per-dimension rolling averages.

Shallow embedding conventions:
* Python floats are modelled as real numbers (`ℝ`) for the ELO rating, whose
  update involves the transcendental `10 ** x`, and as rationals (`ℚ`) for the
  judge scores and dimension averages, whose arithmetic is exact.
* `round(x, 1)` / `round(x, 2)` are modelled with Mathlib's `round`
  (nearest integer); the concrete values in the theorems below are never at a
  rounding tie, where Python's bankers rounding on binary floats could differ.
* Python dicts with string keys are association lists `List (String × _)`;
  a dict field that may be absent from the poem record is an `Option`.
* The random draws of `random.choices` inside `select_pairs` are abstracted
  by an oracle `g : ℕ → ℕ × ℕ` giving the two indices drawn at each attempt;
  `random.choices` raising on an empty population (and only there, for
  in-range draws) is modelled by the `none` result.
* In-place mutation of poem dicts becomes functional update; fallible paths
  return `Option`.
-/

namespace RatePoems

/-- The mutable rating state of one corpus item, from the JSON corpus schema
used by `rate_poems.py` (`elo`, `matches`, `wins`, `losses`, `draws`,
`recent_opponents`, `dim_averages`, `last_reasoning`).  Fields of the record
that the rating engine never reads or writes (lines, author, ...) are
omitted. -/
structure Poem where
  id : String
  elo : ℝ
  «matches» : ℕ
  wins : ℕ
  losses : ℕ
  draws : ℕ
  recent_opponents : List String
  dim_averages : Option (List (String × Option ℚ))
  last_reasoning : Option String

/-- `K_FACTOR_NEW = 32` — for poems with < 20 matches. -/
def K_FACTOR_NEW : ℕ := 32

/-- `K_FACTOR_OLD = 16` — for poems with >= 20 matches. -/
def K_FACTOR_OLD : ℕ := 16

/-- `RECENT_OPPONENT_MEMORY = 10`. -/
def RECENT_OPPONENT_MEMORY : ℕ := 10

/-- `expected_score(rating_a, rating_b) = 1 / (1 + 10 ** ((rating_b - rating_a) / 400))`. -/
noncomputable def expected_score (rating_a rating_b : ℝ) : ℝ :=
  1 / (1 + (10 : ℝ) ^ ((rating_b - rating_a) / 400))

/-- `k_factor(matches) = K_FACTOR_NEW if matches < 20 else K_FACTOR_OLD`. -/
def k_factor (matchCount : ℕ) : ℕ :=
  if matchCount < 20 then K_FACTOR_NEW else K_FACTOR_OLD

/-- Python `round(x, 1)`: round to one decimal place. -/
noncomputable def round1 (x : ℝ) : ℝ := ((round (x * 10) : ℤ) : ℝ) / 10

/-- Python `round(x, 2)` on exact rational data: round to two decimal places. -/
def round2 (x : ℚ) : ℚ := ((round (x * 100) : ℤ) : ℚ) / 100

/-- The counter/opponent part of the `for poem, s, opp in [...]` loop at the
end of `update_elo`: increment `matches`, then exactly one of
`wins`/`losses`/`draws` according to the actual score `s`, then prepend the
opponent id to `recent_opponents` and truncate to `RECENT_OPPONENT_MEMORY`. -/
def applyOutcome (poem : Poem) (s : ℚ) (oppId : String) : Poem :=
  let p1 := { poem with «matches» := poem.matches + 1 }
  let p2 :=
    if s = 1 then { p1 with wins := p1.wins + 1 }
    else if s = 0 then { p1 with losses := p1.losses + 1 }
    else { p1 with draws := p1.draws + 1 }
  { p2 with recent_opponents := (oppId :: p2.recent_opponents).take RECENT_OPPONENT_MEMORY }

/-- `update_elo(poem_a, poem_b, winner)`: the in-place double mutation becomes
a pair of updated poems.  The actual scores `(sa, sb)` are `(1,0)` for
`winner == "a"`, `(0,1)` for `winner == "b"`, and `(0.5, 0.5)` otherwise. -/
noncomputable def update_elo (poem_a poem_b : Poem) (winner : String) : Poem × Poem :=
  let ea := expected_score poem_a.elo poem_b.elo
  let eb := 1 - ea
  let sa : ℚ := if winner = "a" then 1 else if winner = "b" then 0 else 1/2
  let sb : ℚ := if winner = "a" then 0 else if winner = "b" then 1 else 1/2
  let ka := k_factor poem_a.matches
  let kb := k_factor poem_b.matches
  let a1 := { poem_a with elo := round1 (poem_a.elo + (ka : ℝ) * ((sa : ℝ) - ea)) }
  let b1 := { poem_b with elo := round1 (poem_b.elo + (kb : ℝ) * ((sb : ℝ) - eb)) }
  (applyOutcome a1 sa poem_b.id, applyOutcome b1 sb poem_a.id)

/-- The default dict installed by `poem.setdefault("dim_averages", {...})`:
all six dimensions mapped to `None`. -/
def default_dim_averages : List (String × Option ℚ) :=
  [("image_precision", none), ("cut", none), ("economy", none),
   ("resonance", none), ("originality", none), ("musicality", none)]

/-- `round(val if prev is None else (prev * (n - 1) + val) / n, 2)` — the new
stored value for one dimension in `update_dim_averages`. -/
def dimNext (n : ℕ) (prev : Option ℚ) (val : ℚ) : ℚ :=
  match prev with
  | none => round2 val
  | some p => round2 ((p * ((n : ℚ) - 1) + val) / (n : ℚ))

/-- One iteration of the `for dim, val in scores.items()` loop of
`update_dim_averages`: skip keys not present in `avgs`; otherwise replace the
stored value by `dimNext`. -/
def dimStep (n : ℕ) (avgs : List (String × Option ℚ)) (dim : String) (val : ℚ) :
    List (String × Option ℚ) :=
  if dim ∈ avgs.map Prod.fst then
    avgs.map fun e => if e.1 = dim then (e.1, some (dimNext n e.2 val)) else e
  else avgs

/-- `update_dim_averages(poem, scores)`: install the default dict if absent,
then fold the per-dimension update over the score entries, with
`n = poem["matches"]` (already incremented by `update_elo`). -/
def update_dim_averages (poem : Poem) (scores : List (String × ℚ)) : Poem :=
  let avgs := poem.dim_averages.getD default_dim_averages
  let n := poem.matches
  { poem with dim_averages := some (scores.foldl (fun acc e => dimStep n acc e.1 e.2) avgs) }

/-- The fold over the score entries, as it occurs in `update_dim_averages`. -/
def dimFold (n : ℕ) (avgs : List (String × Option ℚ)) (scores : List (String × ℚ)) :
    List (String × Option ℚ) :=
  scores.foldl (fun acc e => dimStep n acc e.1 e.2) avgs

/-- A parsed JSON value as it can appear inside a judge response:
a number, a string, or anything else (`other`); `isinstance(val, (int, float))`
holds exactly for `num`. -/
inductive JsonVal where
  | num (q : ℚ)
  | str (s : String)
  | other
  deriving DecidableEq

/-- A parsed judge response (the dict returned by `parse_judge_response`):
the `"a"`/`"b"` side score dicts, the `"winner"` value and the `"reasoning"`
string, each possibly missing. -/
structure JudgeData where
  a : Option (List (String × JsonVal))
  b : Option (List (String × JsonVal))
  winner : Option JsonVal
  reasoning : Option String

/-- The `dims` list of `validate_scores` (also reused for the totals in
`judge_pair`): the six fixed literary dimensions. -/
def dims : List String :=
  ["image_precision", "cut", "economy", "resonance", "originality", "musicality"]

/-- The per-side check of `validate_scores`: the side must be present and
every dimension's value must be numeric with `1 <= val <= 5`. -/
def validSide : Option (List (String × JsonVal)) → Bool
  | none => false
  | some m => dims.all fun d =>
      match m.lookup d with
      | some (.num v) => decide (1 ≤ v) && decide (v ≤ 5)
      | _ => false

/-- The winner check of `validate_scores`:
`data.get("winner") in ("a", "b", "draw")`. -/
def winnerOk : Option JsonVal → Bool
  | some (.str w) => w == "a" || w == "b" || w == "draw"
  | _ => false

/-- `validate_scores(data)`. -/
def validate_scores (data : JudgeData) : Bool :=
  validSide data.a && validSide data.b && winnerOk data.winner

/-- The validated verdict handed to the orchestrator by `judge_pair`:
numeric per-side score entries (with the `"total"` entry already added),
the winner tag and the reasoning sentence. -/
structure Verdict where
  a : List (String × ℚ)
  b : List (String × ℚ)
  winner : String
  reasoning : String

/-- The numeric entries of a side dict, in order.  After `validate_scores`
succeeds every dimension entry is numeric, so on the keys the engine ever
reads this is the side dict itself. -/
def numEntries (m : List (String × JsonVal)) : List (String × ℚ) :=
  m.filterMap fun e =>
    match e.2 with
    | .num q => some (e.1, q)
    | _ => none

/-- `sum(result[side][d] for d in dims)` — on a validated side every
dimension is numeric, so the fallback 0 of the match is never taken there. -/
def sideTotal (m : List (String × ℚ)) : ℚ :=
  (dims.map fun d => (m.lookup d).getD 0).sum

/-- `result[side]["total"] = ...`: dict assignment — overwrite the entry if
the key exists, append it otherwise. -/
def setKey (m : List (String × ℚ)) (k : String) (v : ℚ) : List (String × ℚ) :=
  if k ∈ m.map Prod.fst then m.map (fun e => if e.1 = k then (e.1, v) else e)
  else m ++ [(k, v)]

/-- The successful tail of `judge_pair`: add each side's `"total"` and
package the verdict (`result.get("reasoning", "")` defaults to `""`).
Returns `none` only if a side or the winner is missing or the winner is not
a string, which `validate_scores` rules out. -/
def toVerdict (data : JudgeData) : Option Verdict :=
  match data.a, data.b, data.winner with
  | some ma, some mb, some (.str w) =>
      let na := numEntries ma
      let nb := numEntries mb
      some ⟨setKey na "total" (sideTotal na), setKey nb "total" (sideTotal nb),
            w, data.reasoning.getD ""⟩
  | _, _, _ => none

/-- The retry loop of `judge_pair` over the (up to 3) attempt outcomes:
each attempt yields either a parsed response (`some data`) or a transport /
parse failure (`none`); the first response that passes `validate_scores` is
returned with totals added, and exhausting the attempts returns `none`. -/
def judge_pair : List (Option JudgeData) → Option Verdict
  | [] => none
  | none :: rest => judge_pair rest
  | some data :: rest =>
      if validate_scores data then toVerdict data else judge_pair rest

/-- `max(p["matches"] for p in poems) if poems else 0`. -/
def max_matches (poems : List Poem) : ℕ :=
  (poems.map Poem.matches).foldr max 0

/-- `weights = [max_matches - p["matches"] + 1 for p in poems]`. -/
def weights (poems : List Poem) : List ℕ :=
  poems.map fun p => max_matches poems - p.matches + 1

/-- The `while len(pairs) < n and attempts < max_attempts` loop of
`select_pairs`, with `fuel = max_attempts - attempts` remaining attempts and
the accumulated pairs kept in reverse order.  The oracle `g` gives the two
indices drawn by `random.choices` at each attempt; a draw that cannot be
serviced (empty population — `random.choices` raises `IndexError` there —
or an out-of-range index, impossible for the real generator) yields `none`. -/
def selectLoop (poems : List Poem) (n : ℕ) (g : ℕ → ℕ × ℕ) (maxAttempts : ℕ) :
    ℕ → List (Poem × Poem) → Option (List (Poem × Poem))
  | 0, pairs => some pairs.reverse
  | fuel + 1, pairs =>
    if n ≤ pairs.length then some pairs.reverse
    else
      let d := g (maxAttempts - (fuel + 1))
      match poems[d.1]?, poems[d.2]? with
      | some a, some b =>
        if d.1 = d.2 then selectLoop poems n g maxAttempts fuel pairs
        else if b.id ∈ a.recent_opponents then selectLoop poems n g maxAttempts fuel pairs
        else selectLoop poems n g maxAttempts fuel ((a, b) :: pairs)
      | _, _ => none

/-- `select_pairs(poems, n)` with the random draws supplied by `g`:
`max_attempts = n * 20` attempts of the rejection loop. -/
def select_pairs (poems : List Poem) (n : ℕ) (g : ℕ → ℕ × ℕ) :
    Option (List (Poem × Poem)) :=
  selectLoop poems n g (n * 20) (n * 20) []

/-- The per-session tallies of `main`:
`wins_a = wins_b = draws = errors = 0` before the loop. -/
structure SessionStats where
  wins_a : ℕ
  wins_b : ℕ
  draws : ℕ
  errors : ℕ

/-- The body of the `for i, (poem_a, poem_b) in enumerate(pairs, 1)` loop of
`main` for one pair: on a judge failure (`none`) count an error and leave the
pair untouched; on a verdict apply `update_elo`, `update_dim_averages` for
both sides, store `last_reasoning`, and tally the outcome. -/
noncomputable def process_pair (ab : Poem × Poem) (result : Option Verdict)
    (st : SessionStats) : (Poem × Poem) × SessionStats :=
  match result with
  | none => (ab, { st with errors := st.errors + 1 })
  | some v =>
      let r := update_elo ab.1 ab.2 v.winner
      let a2 := update_dim_averages r.1 v.a
      let b2 := update_dim_averages r.2 v.b
      let a3 := { a2 with last_reasoning := some v.reasoning }
      let b3 := { b2 with last_reasoning := some v.reasoning }
      let st' :=
        if v.winner = "a" then { st with wins_a := st.wins_a + 1 }
        else if v.winner = "b" then { st with wins_b := st.wins_b + 1 }
        else { st with draws := st.draws + 1 }
      ((a3, b3), st')

/-- The judged-pairs loop of `main`: each selected pair together with its
judge outcome is processed in order; the loop never aborts — every pair is
processed and the final tallies are returned alongside the updated pairs. -/
noncomputable def run_session :
    List ((Poem × Poem) × Option Verdict) → SessionStats →
    List (Poem × Poem) × SessionStats
  | [], st => ([], st)
  | (ab, r) :: rest, st =>
      let step := process_pair ab r st
      let tail := run_session rest step.2
      (step.1 :: tail.1, tail.2)

/-- A fresh corpus item as `build_corpus.py` initialises it:
rating 1500.0, all counters 0, no recent opponents, `dim_averages` unset. -/
def freshPoem (i : String) : Poem :=
  ⟨i, 1500, 0, 0, 0, 0, [], none, none⟩

/-- The two-item corpus of the end-to-end scenario: item `"a"`. -/
def poemA : Poem := freshPoem "a"

/-- The two-item corpus of the end-to-end scenario: item `"b"`. -/
def poemB : Poem := freshPoem "b"

/-- A judged side with every dimension scored 3. -/
def scoresAll3 : List (String × ℚ) := dims.map fun d => (d, 3)

/-- A counter triple advanced by exactly one outcome: exactly one of
`wins`/`losses`/`draws` grew by one and the other two are unchanged. -/
def IncExactlyOne (p q : Poem) : Prop :=
  (q.wins = p.wins + 1 ∧ q.losses = p.losses ∧ q.draws = p.draws) ∨
  (q.wins = p.wins ∧ q.losses = p.losses + 1 ∧ q.draws = p.draws) ∨
  (q.wins = p.wins ∧ q.losses = p.losses ∧ q.draws = p.draws + 1)

/-- An item at 1500 with 19 matches played (K-factor boundary, below). -/
def poem19 : Poem := ⟨"p19", 1500, 19, 19, 0, 0, [], none, none⟩

/-- An item at 1500 with 20 matches played (K-factor boundary, at). -/
def poem20 : Poem := ⟨"p20", 1500, 20, 20, 0, 0, [], none, none⟩

/-- A judge-response side scoring every dimension 3. -/
def side3 : List (String × JsonVal) := dims.map fun d => (d, JsonVal.num 3)

/-- A judge-response side scoring every dimension 3 except `d0`, which gets
the value `v`. -/
def sideWith (d0 : String) (v : JsonVal) : List (String × JsonVal) :=
  dims.map fun d => (d, if d = d0 then v else JsonVal.num 3)

/-- A judge-response side with the `d0` key missing and every other dimension
scored 3. -/
def sideMissing (d0 : String) : List (String × JsonVal) :=
  (dims.filter fun d => d != d0).map fun d => (d, JsonVal.num 3)

/-- A fully valid judge response: all dimensions 3, winner `"a"`. -/
def goodJudgeData : JudgeData := ⟨some side3, some side3, some (.str "a"), some "x"⟩

/-- A judge response with the `"cut"` key missing on side a. -/
def missingDimJudgeData : JudgeData :=
  ⟨some (sideMissing "cut"), some side3, some (.str "a"), some "x"⟩

/-- A judge response scoring `"cut"` as 6 on side a. -/
def value6JudgeData : JudgeData :=
  ⟨some (sideWith "cut" (.num 6)), some side3, some (.str "a"), some "x"⟩

/-- A judge response with winner `"c"`. -/
def winnerCJudgeData : JudgeData := ⟨some side3, some side3, some (.str "c"), some "x"⟩

/-- A judge response scoring `"cut"` as the non-integer 5/2 on side a. -/
def halfScoreJudgeData : JudgeData :=
  ⟨some (sideWith "cut" (.num (5 / 2))), some side3, some (.str "a"), some "x"⟩

/-- Modelled from the spec: the side condition of the validation property as
the spec words it in §4.3 — "all 6 dimensions present and numeric in
`[1,5]`". -/
def claimSideOk (m : List (String × JsonVal)) : Prop :=
  ∀ d ∈ dims, ∃ v : ℚ, m.lookup d = some (.num v) ∧ 1 ≤ v ∧ v ≤ 5

/-- Modelled from the spec: `winner ∈ \x7bA, B, draw\x7d`. -/
def winnerClaimOk (w : Option JsonVal) : Prop :=
  w = some (.str "a") ∨ w = some (.str "b") ∨ w = some (.str "draw")

/-- Modelled from the spec: the full acceptance condition with numeric
dimension values — both sides present, all 6 dimensions numeric in `[1,5]`,
winner one of a/b/draw. -/
def claimAcceptsNumeric (data : JudgeData) : Prop :=
  (∃ m, data.a = some m ∧ claimSideOk m) ∧
  (∃ m, data.b = some m ∧ claimSideOk m) ∧ winnerClaimOk data.winner

/-- Modelled from the spec: the side condition as the claim words it —
all 6 dimensions present with integer values in `[1,5]`. -/
def claimSideOkInt (m : List (String × JsonVal)) : Prop :=
  ∀ d ∈ dims, ∃ k : ℤ, m.lookup d = some (.num (k : ℚ)) ∧ 1 ≤ k ∧ k ≤ 5

/-- Modelled from the spec: the full acceptance condition as the claim words
it, with integer dimension values. -/
def claimAcceptsInt (data : JudgeData) : Prop :=
  (∃ m, data.a = some m ∧ claimSideOkInt m) ∧
  (∃ m, data.b = some m ∧ claimSideOkInt m) ∧ winnerClaimOk data.winner

/-!  Helper lemmas about the numeric kernel of the updater. -/

lemma expected_score_self (r : ℝ) : expected_score r r = 1 / 2 := by
  unfold expected_score
  rw [sub_self, zero_div, Real.rpow_zero]
  norm_num

lemma round1_intCast (z : ℤ) : round1 (z : ℝ) = (z : ℝ) := by
  unfold round1
  have h : ((z : ℝ) * 10) = ((z * 10 : ℤ) : ℝ) := by push_cast; ring
  rw [h, round_intCast]
  push_cast
  ring

lemma round2_intCast (z : ℤ) : round2 (z : ℚ) = (z : ℚ) := by
  unfold round2
  have h : ((z : ℚ) * 100) = ((z * 100 : ℤ) : ℚ) := by push_cast; ring
  rw [h, round_intCast]
  push_cast
  ring

/-!  Projection lemmas for `applyOutcome` and `update_elo`, used to track the
counter and opponent-list fields through an update with an arbitrary
winner string. -/

lemma applyOutcome_matches (p : Poem) (s : ℚ) (o : String) :
    (applyOutcome p s o).matches = p.matches + 1 := by
  unfold applyOutcome; split_ifs <;> rfl

lemma applyOutcome_id (p : Poem) (s : ℚ) (o : String) :
    (applyOutcome p s o).id = p.id := by
  unfold applyOutcome; split_ifs <;> rfl

lemma applyOutcome_dim_averages (p : Poem) (s : ℚ) (o : String) :
    (applyOutcome p s o).dim_averages = p.dim_averages := by
  unfold applyOutcome; split_ifs <;> rfl

lemma applyOutcome_recent (p : Poem) (s : ℚ) (o : String) :
    (applyOutcome p s o).recent_opponents =
      (o :: p.recent_opponents).take RECENT_OPPONENT_MEMORY := by
  unfold applyOutcome; split_ifs <;> rfl

lemma applyOutcome_win (p : Poem) (o : String) :
    (applyOutcome p 1 o).wins = p.wins + 1 ∧ (applyOutcome p 1 o).losses = p.losses ∧
      (applyOutcome p 1 o).draws = p.draws := by
  unfold applyOutcome; norm_num

lemma applyOutcome_loss (p : Poem) (o : String) :
    (applyOutcome p 0 o).wins = p.wins ∧ (applyOutcome p 0 o).losses = p.losses + 1 ∧
      (applyOutcome p 0 o).draws = p.draws := by
  unfold applyOutcome; norm_num

lemma applyOutcome_draw (p : Poem) (s : ℚ) (o : String) (h1 : s ≠ 1) (h0 : s ≠ 0) :
    (applyOutcome p s o).wins = p.wins ∧ (applyOutcome p s o).losses = p.losses ∧
      (applyOutcome p s o).draws = p.draws + 1 := by
  unfold applyOutcome; simp [h1, h0]

lemma applyOutcome_elo (p : Poem) (s : ℚ) (o : String) :
    (applyOutcome p s o).elo = p.elo := by
  unfold applyOutcome; split_ifs <;> rfl

lemma update_elo_fst_matches (a b : Poem) (w : String) :
    (update_elo a b w).1.matches = a.matches + 1 := by
  simp [update_elo, applyOutcome_matches]

lemma update_elo_snd_matches (a b : Poem) (w : String) :
    (update_elo a b w).2.matches = b.matches + 1 := by
  simp [update_elo, applyOutcome_matches]

lemma update_elo_fst_recent (a b : Poem) (w : String) :
    (update_elo a b w).1.recent_opponents =
      (b.id :: a.recent_opponents).take RECENT_OPPONENT_MEMORY := by
  simp [update_elo, applyOutcome_recent]

lemma update_elo_snd_recent (a b : Poem) (w : String) :
    (update_elo a b w).2.recent_opponents =
      (a.id :: b.recent_opponents).take RECENT_OPPONENT_MEMORY := by
  simp [update_elo, applyOutcome_recent]

lemma update_elo_fst_id (a b : Poem) (w : String) :
    (update_elo a b w).1.id = a.id := by
  simp [update_elo, applyOutcome_id]

lemma update_elo_snd_id (a b : Poem) (w : String) :
    (update_elo a b w).2.id = b.id := by
  simp [update_elo, applyOutcome_id]

lemma update_dim_averages_elo (p : Poem) (s : List (String × ℚ)) :
    (update_dim_averages p s).elo = p.elo := rfl

lemma update_dim_averages_matches (p : Poem) (s : List (String × ℚ)) :
    (update_dim_averages p s).matches = p.matches := rfl

lemma update_dim_averages_wins (p : Poem) (s : List (String × ℚ)) :
    (update_dim_averages p s).wins = p.wins := rfl

lemma update_dim_averages_losses (p : Poem) (s : List (String × ℚ)) :
    (update_dim_averages p s).losses = p.losses := rfl

/-!  The association-list lemmas for the dimension-average fold. -/

lemma update_dim_averages_eq_dimFold (p : Poem) (scores : List (String × ℚ)) :
    (update_dim_averages p scores).dim_averages =
      some (dimFold p.matches (p.dim_averages.getD default_dim_averages) scores) := rfl

lemma dimStep_keys (n : ℕ) (avgs : List (String × Option ℚ)) (dim : String) (val : ℚ) :
    (dimStep n avgs dim val).map Prod.fst = avgs.map Prod.fst := by
  unfold dimStep
  split
  · rw [List.map_map]
    apply List.map_congr_left
    intro e _
    by_cases h : e.1 = dim <;> simp [h]
  · rfl

lemma dimFold_keys (n : ℕ) (scores : List (String × ℚ)) (avgs : List (String × Option ℚ)) :
    (dimFold n avgs scores).map Prod.fst = avgs.map Prod.fst := by
  induction scores generalizing avgs with
  | nil => rfl
  | cons s rest ih => rw [dimFold, List.foldl_cons, ← dimFold, ih, dimStep_keys]

lemma lookup_cons_ite {β : Type} (k d : String) (v : β) (l : List (String × β)) :
    ((k, v) :: l).lookup d = if d = k then some v else l.lookup d := by
  by_cases h : d = k
  · simp [List.lookup, h]
  · have hb : (d == k) = false := beq_eq_false_iff_ne.mpr h
    simp [List.lookup, hb, h]

lemma mem_keys_of_lookup {β : Type} (l : List (String × β)) (d : String) (x : β)
    (h : l.lookup d = some x) : d ∈ l.map Prod.fst := by
  induction l with
  | nil => simp [List.lookup] at h
  | cons e rest ih =>
      obtain ⟨k, v⟩ := e
      rw [lookup_cons_ite] at h
      by_cases hd : d = k
      · simp [hd]
      · rw [if_neg hd] at h
        simp [ih h]

lemma lookup_map_update_ne (n : ℕ) (dim d : String) (val : ℚ) (hne : d ≠ dim)
    (l : List (String × Option ℚ)) :
    (l.map fun e => if e.1 = dim then (e.1, some (dimNext n e.2 val)) else e).lookup d =
      l.lookup d := by
  induction l with
  | nil => rfl
  | cons e rest ih =>
      obtain ⟨k, v⟩ := e
      rw [List.map_cons]
      dsimp only
      by_cases he : k = dim
      · rw [if_pos he, lookup_cons_ite, lookup_cons_ite,
          if_neg (he ▸ hne), if_neg (he ▸ hne)]
        exact ih
      · rw [if_neg he, lookup_cons_ite, lookup_cons_ite]
        by_cases hd : d = k
        · rw [if_pos hd, if_pos hd]
        · rw [if_neg hd, if_neg hd]
          exact ih

lemma lookup_map_update_self (n : ℕ) (dim : String) (val : ℚ)
    (l : List (String × Option ℚ)) (prev : Option ℚ) (hlk : l.lookup dim = some prev) :
    (l.map fun e => if e.1 = dim then (e.1, some (dimNext n e.2 val)) else e).lookup dim =
      some (some (dimNext n prev val)) := by
  induction l with
  | nil => simp [List.lookup] at hlk
  | cons e rest ih =>
      obtain ⟨k, v⟩ := e
      rw [lookup_cons_ite] at hlk
      rw [List.map_cons]
      dsimp only
      by_cases hd : dim = k
      · rw [if_pos hd] at hlk
        rw [if_pos hd.symm, lookup_cons_ite, if_pos hd, Option.some_inj.mp hlk]
      · rw [if_neg hd] at hlk
        have he : ¬ k = dim := fun h => hd h.symm
        rw [if_neg he, lookup_cons_ite, if_neg hd]
        exact ih hlk

lemma dimStep_lookup_ne (n : ℕ) (avgs : List (String × Option ℚ)) (dim : String) (val : ℚ)
    (d : String) (hne : d ≠ dim) :
    (dimStep n avgs dim val).lookup d = avgs.lookup d := by
  unfold dimStep
  split
  · exact lookup_map_update_ne n dim d val hne avgs
  · rfl

lemma dimStep_lookup_self (n : ℕ) (avgs : List (String × Option ℚ)) (dim : String) (val : ℚ)
    (prev : Option ℚ) (hlk : avgs.lookup dim = some prev) :
    (dimStep n avgs dim val).lookup dim = some (some (dimNext n prev val)) := by
  unfold dimStep
  rw [if_pos (mem_keys_of_lookup avgs dim prev hlk)]
  exact lookup_map_update_self n dim val avgs prev hlk

lemma dimFold_lookup_not_mem (n : ℕ) (scores : List (String × ℚ))
    (avgs : List (String × Option ℚ)) (d : String) (h : d ∉ scores.map Prod.fst) :
    (dimFold n avgs scores).lookup d = avgs.lookup d := by
  induction scores generalizing avgs with
  | nil => rfl
  | cons s rest ih =>
      simp only [List.map_cons, List.mem_cons, not_or] at h
      rw [dimFold, List.foldl_cons, ← dimFold, ih _ h.2, dimStep_lookup_ne _ _ _ _ _ h.1]

lemma dimFold_lookup (n : ℕ) (scores : List (String × ℚ)) (avgs : List (String × Option ℚ))
    (d : String) (val : ℚ) (prev : Option ℚ) (hnd : (scores.map Prod.fst).Nodup)
    (hmem : (d, val) ∈ scores) (hlk : avgs.lookup d = some prev) :
    (dimFold n avgs scores).lookup d = some (some (dimNext n prev val)) := by
  induction scores generalizing avgs with
  | nil => simp at hmem
  | cons s rest ih =>
      obtain ⟨k, v⟩ := s
      simp only [List.map_cons, List.nodup_cons] at hnd
      rcases List.mem_cons.mp hmem with heq | htail
      · injection heq with h1 h2
        subst h1
        subst h2
        rw [dimFold, List.foldl_cons, ← dimFold, dimFold_lookup_not_mem _ _ _ _ hnd.1]
        exact dimStep_lookup_self _ _ _ _ _ hlk
      · have hne : d ≠ k := by
          intro h
          exact hnd.1 (h ▸ List.mem_map_of_mem Prod.fst htail)
        rw [dimFold, List.foldl_cons, ← dimFold]
        exact ih _ hnd.2 htail (by rw [dimStep_lookup_ne _ _ _ _ _ hne]; exact hlk)

/-!  Lemmas about the pair-selection rejection loop. -/

lemma selectLoop_length (poems : List Poem) (n : ℕ) (g : ℕ → ℕ × ℕ) (ma : ℕ) :
    ∀ (fuel : ℕ) (acc res : List (Poem × Poem)),
      acc.length ≤ n → selectLoop poems n g ma fuel acc = some res → res.length ≤ n := by
  intro fuel
  induction fuel with
  | zero =>
      intro acc res hacc h
      simp only [selectLoop] at h
      injection h with h2
      simpa [← h2] using hacc
  | succ fuel ih =>
      intro acc res hacc h
      simp only [selectLoop] at h
      by_cases hn : n ≤ acc.length
      · rw [if_pos hn] at h
        injection h with h2
        simpa [← h2] using hacc
      · rw [if_neg hn] at h
        cases h1 : poems[(g (ma - (fuel + 1))).1]? with
        | none => simp [h1] at h
        | some a =>
            cases h2 : poems[(g (ma - (fuel + 1))).2]? with
            | none => simp [h1, h2] at h
            | some b =>
                simp only [h1, h2] at h
                split at h
                · exact ih acc res hacc h
                · split at h
                  · exact ih acc res hacc h
                  · refine ih ((a, b) :: acc) res ?_ h
                    simp only [List.length_cons]
                    omega

lemma selectLoop_mem (poems : List Poem) (n : ℕ) (g : ℕ → ℕ × ℕ) (ma : ℕ)
    (hids : (poems.map Poem.id).Nodup) :
    ∀ (fuel : ℕ) (acc res : List (Poem × Poem)),
      selectLoop poems n g ma fuel acc = some res →
      (∀ pr ∈ acc, pr.1.id ≠ pr.2.id ∧ pr.2.id ∉ pr.1.recent_opponents) →
      ∀ pr ∈ res, pr.1.id ≠ pr.2.id ∧ pr.2.id ∉ pr.1.recent_opponents := by
  intro fuel
  induction fuel with
  | zero =>
      intro acc res h hacc
      simp only [selectLoop] at h
      injection h with h2
      intro pr hpr
      exact hacc pr (by rw [← h2] at hpr; exact List.mem_reverse.mp hpr)
  | succ fuel ih =>
      intro acc res h hacc
      simp only [selectLoop] at h
      by_cases hn : n ≤ acc.length
      · rw [if_pos hn] at h
        injection h with h2
        intro pr hpr
        exact hacc pr (by rw [← h2] at hpr; exact List.mem_reverse.mp hpr)
      · rw [if_neg hn] at h
        cases h1 : poems[(g (ma - (fuel + 1))).1]? with
        | none => simp [h1] at h
        | some a =>
            cases h2 : poems[(g (ma - (fuel + 1))).2]? with
            | none => simp [h1, h2] at h
            | some b =>
                simp only [h1, h2] at h
                split at h
                · exact ih acc res h hacc
                · rename_i hne
                  split at h
                  · exact ih acc res h hacc
                  · rename_i hrec
                    refine ih ((a, b) :: acc) res h ?_
                    intro pr hpr
                    rcases List.mem_cons.mp hpr with rfl | hmem
                    · refine ⟨?_, hrec⟩
                      intro hid
                      apply hne
                      have ha1 : (poems.map Poem.id)[(g (ma - (fuel + 1))).1]? =
                          some a.id := by rw [List.getElem?_map, h1]; rfl
                      have hb1 : (poems.map Poem.id)[(g (ma - (fuel + 1))).2]? =
                          some b.id := by rw [List.getElem?_map, h2]; rfl
                      have hlt : (g (ma - (fuel + 1))).1 < (poems.map Poem.id).length := by
                        rcases List.getElem?_eq_some.mp ha1 with ⟨hl, _⟩
                        exact hl
                      exact List.getElem?_inj hlt hids (by rw [ha1, hb1, hid])
                    · exact hacc pr hmem

lemma selectLoop_congr (poems : List Poem) (n : ℕ) (g g' : ℕ → ℕ × ℕ) (ma : ℕ)
    (hg : ∀ i, i < ma → g i = g' i) :
    ∀ (fuel : ℕ) (acc : List (Poem × Poem)), fuel ≤ ma →
      selectLoop poems n g ma fuel acc = selectLoop poems n g' ma fuel acc := by
  intro fuel
  induction fuel with
  | zero => intro acc _; simp only [selectLoop]
  | succ fuel ih =>
      intro acc hle
      have hidx : ma - (fuel + 1) < ma := by omega
      simp only [selectLoop, hg _ hidx]
      by_cases hn : n ≤ acc.length
      · rw [if_pos hn, if_pos hn]
      · rw [if_neg hn, if_neg hn]
        cases h1 : poems[(g' (ma - (fuel + 1))).1]? with
        | none => rfl
        | some a =>
            cases h2 : poems[(g' (ma - (fuel + 1))).2]? with
            | none => rfl
            | some b =>
                have hrest : fuel ≤ ma := by omega
                dsimp only
                by_cases hdd : (g' (ma - (fuel + 1))).1 = (g' (ma - (fuel + 1))).2
                · rw [if_pos hdd, if_pos hdd]
                  exact ih acc hrest
                · rw [if_neg hdd, if_neg hdd]
                  by_cases hbb : b.id ∈ a.recent_opponents
                  · rw [if_pos hbb, if_pos hbb]
                    exact ih acc hrest
                  · rw [if_neg hbb, if_neg hbb]
                    exact ih ((a, b) :: acc) hrest

lemma selectLoop_singleton (p : Poem) (n : ℕ) (g : ℕ → ℕ × ℕ) (ma : ℕ)
    (hg : ∀ i, g i = (0, 0)) :
    ∀ (fuel : ℕ) (acc : List (Poem × Poem)),
      selectLoop [p] n g ma fuel acc = some acc.reverse := by
  intro fuel
  induction fuel with
  | zero => intro acc; simp only [selectLoop]
  | succ fuel ih =>
      intro acc
      simp only [selectLoop, hg]
      by_cases hn : n ≤ acc.length
      · rw [if_pos hn]
      · rw [if_neg hn]
        simpa using ih acc

lemma validSide_iff (o : Option (List (String × JsonVal))) :
    validSide o = true ↔ ∃ m, o = some m ∧ claimSideOk m := by
  cases o with
  | none => simp [validSide]
  | some m =>
      simp only [validSide, List.all_eq_true]
      constructor
      · intro h
        refine ⟨m, rfl, ?_⟩
        intro d hd
        have hdm := h d hd
        cases hlk : m.lookup d with
        | none => rw [hlk] at hdm; simp at hdm
        | some jv =>
            cases jv with
            | num v =>
                rw [hlk] at hdm
                simp at hdm
                exact ⟨v, rfl, hdm.1, hdm.2⟩
            | str s => rw [hlk] at hdm; simp at hdm
            | other => rw [hlk] at hdm; simp at hdm
      · rintro ⟨m', hm', hok⟩ d hd
        injection hm' with hmm
        subst hmm
        obtain ⟨v, hlk, h1, h5⟩ := hok d hd
        rw [hlk]
        simp [h1, h5]

lemma winnerOk_iff (w : Option JsonVal) : winnerOk w = true ↔ winnerClaimOk w := by
  cases w with
  | none => simp [winnerOk, winnerClaimOk]
  | some jv =>
      cases jv with
      | num q => simp [winnerOk, winnerClaimOk]
      | str s =>
          simp only [winnerOk, winnerClaimOk, Bool.or_eq_true, beq_iff_eq,
            Option.some_inj, JsonVal.str.injEq]
          tauto
      | other => simp [winnerOk, winnerClaimOk]

/-!  The claims. -/

/-- C7: the K-factor of a rating update is determined by the item's pre-match
match count — `K = 32` for `matches < 20` and `K = 16` for `matches >= 20`;
the update for item A uses exactly `k_factor a.matches`; an item at 19
matches and rating 1500 beating an equal opponent moves to 1516 (K = 32),
while at 20 matches it moves to 1508 (K = 16). -/
theorem k_factor_adaptive :
    (∀ m : ℕ, m < 20 → k_factor m = 32) ∧
    (∀ m : ℕ, 20 ≤ m → k_factor m = 16) ∧
    k_factor 19 = 32 ∧ k_factor 20 = 16 ∧
    (∀ a b : Poem, (update_elo a b "a").1.elo =
      round1 (a.elo + (k_factor a.matches : ℝ) * (1 - expected_score a.elo b.elo))) ∧
    (update_elo poem19 poemB "a").1.elo = 1516 ∧
    (update_elo poem20 poemB "a").1.elo = 1508 := by
  refine ⟨?_, ?_, rfl, rfl, ?_, ?_, ?_⟩
  · intro m h
    simp [k_factor, K_FACTOR_NEW, h]
  · intro m h
    simp only [k_factor, K_FACTOR_OLD, if_neg (by omega : ¬ m < 20)]
  · intro a b
    simp [update_elo, applyOutcome_elo]
  · simp [update_elo, applyOutcome_elo, poem19, poemB, freshPoem, k_factor, K_FACTOR_NEW,
      expected_score_self]
    norm_num [round1, round_eq]
  · simp [update_elo, applyOutcome_elo, poem20, poemB, freshPoem, k_factor, K_FACTOR_OLD,
      expected_score_self]
    norm_num [round1, round_eq]

/-- C7 witness: the two general K-factor clauses instantiated at 19 and 25. -/
theorem k_factor_adaptive_witness : k_factor 19 = 32 ∧ k_factor 25 = 16 :=
  ⟨k_factor_adaptive.1 19 (by norm_num), k_factor_adaptive.2.1 25 (by norm_num)⟩

/-- C2: for any two items and any verdict winner among a/b/draw, if
`matches = wins + losses + draws` holds for both before `update_elo`, then
afterwards each item's `matches` grew by exactly one, exactly one of its
`wins`/`losses`/`draws` grew by exactly one, and the counter equation holds
again for both. -/
theorem update_elo_counter_invariant (a b : Poem) (w : String)
    (hw : w = "a" ∨ w = "b" ∨ w = "draw")
    (ha : a.matches = a.wins + a.losses + a.draws)
    (hb : b.matches = b.wins + b.losses + b.draws) :
    (update_elo a b w).1.matches = a.matches + 1 ∧
    (update_elo a b w).2.matches = b.matches + 1 ∧
    IncExactlyOne a (update_elo a b w).1 ∧
    IncExactlyOne b (update_elo a b w).2 ∧
    (update_elo a b w).1.matches =
      (update_elo a b w).1.wins + (update_elo a b w).1.losses + (update_elo a b w).1.draws ∧
    (update_elo a b w).2.matches =
      (update_elo a b w).2.wins + (update_elo a b w).2.losses + (update_elo a b w).2.draws := by
  have h1 := update_elo_fst_matches a b w
  have h2 := update_elo_snd_matches a b w
  rcases hw with rfl | rfl | rfl
  · refine ⟨h1, h2, ?_, ?_, ?_, ?_⟩ <;>
      norm_num [update_elo, applyOutcome, IncExactlyOne] <;> omega
  · have hba : ("b" : String) ≠ "a" := by decide
    refine ⟨h1, h2, ?_, ?_, ?_, ?_⟩ <;>
      norm_num [update_elo, applyOutcome, IncExactlyOne, hba] <;> omega
  · have hd1 : ("draw" : String) ≠ "a" := by decide
    have hd2 : ("draw" : String) ≠ "b" := by decide
    refine ⟨h1, h2, ?_, ?_, ?_, ?_⟩ <;>
      norm_num [update_elo, applyOutcome, IncExactlyOne, hd1, hd2] <;> omega

/-- C2 witness: the counter invariant at the concrete fresh two-item corpus
with winner `"a"`. -/
theorem update_elo_counter_invariant_witness :
    (update_elo poemA poemB "a").1.matches = poemA.matches + 1 ∧
    IncExactlyOne poemA (update_elo poemA poemB "a").1 :=
  ⟨(update_elo_counter_invariant poemA poemB "a" (Or.inl rfl) rfl rfl).1,
   (update_elo_counter_invariant poemA poemB "a" (Or.inl rfl) rfl rfl).2.2.1⟩

/-- C3 counterexample: the claim that `recent_opponents` never contains
duplicate ids after any sequence of `update_elo` applications is false —
applying `update_elo` twice to the same fresh pair leaves item a with
`recent_opponents = ["b", "b"]`. -/
theorem recent_opponents_duplicate_counterexample :
    (update_elo (update_elo poemA poemB "a").1 (update_elo poemA poemB "a").2
        "a").1.recent_opponents = ["b", "b"] ∧
    ¬ (update_elo (update_elo poemA poemB "a").1 (update_elo poemA poemB "a").2
        "a").1.recent_opponents.Nodup := by
  have h : (update_elo (update_elo poemA poemB "a").1 (update_elo poemA poemB "a").2
      "a").1.recent_opponents = ["b", "b"] := by
    rw [update_elo_fst_recent, update_elo_fst_recent, update_elo_snd_id]
    simp [poemA, poemB, freshPoem, RECENT_OPPONENT_MEMORY]
  exact ⟨h, by rw [h]; decide⟩

/-- C3 amended: after any single `update_elo` (hence inductively after any
sequence of them), each participant's `recent_opponents` equals the
opponent's id prepended to the old list and truncated to the cap of 10
(most-recent-first, oldest evicted), so its length is at most 10; it is
duplicate-free provided the new opponent was not already in the list (as the
pair selector guarantees for the pairs it emits) and the old list was
duplicate-free. -/
theorem recent_opponents_bounded (a b : Poem) (w : String) :
    (update_elo a b w).1.recent_opponents =
      (b.id :: a.recent_opponents).take RECENT_OPPONENT_MEMORY ∧
    (update_elo a b w).2.recent_opponents =
      (a.id :: b.recent_opponents).take RECENT_OPPONENT_MEMORY ∧
    (update_elo a b w).1.recent_opponents.length ≤ RECENT_OPPONENT_MEMORY ∧
    (update_elo a b w).2.recent_opponents.length ≤ RECENT_OPPONENT_MEMORY ∧
    (b.id ∉ a.recent_opponents → a.recent_opponents.Nodup →
      (update_elo a b w).1.recent_opponents.Nodup) ∧
    (a.id ∉ b.recent_opponents → b.recent_opponents.Nodup →
      (update_elo a b w).2.recent_opponents.Nodup) := by
  refine ⟨update_elo_fst_recent a b w, update_elo_snd_recent a b w, ?_, ?_, ?_, ?_⟩
  · rw [update_elo_fst_recent]
    exact List.length_take_le RECENT_OPPONENT_MEMORY (b.id :: a.recent_opponents)
  · rw [update_elo_snd_recent]
    exact List.length_take_le RECENT_OPPONENT_MEMORY (a.id :: b.recent_opponents)
  · intro hmem hnd
    rw [update_elo_fst_recent]
    exact List.Nodup.sublist (List.take_sublist _ _) (List.nodup_cons.mpr ⟨hmem, hnd⟩)
  · intro hmem hnd
    rw [update_elo_snd_recent]
    exact List.Nodup.sublist (List.take_sublist _ _) (List.nodup_cons.mpr ⟨hmem, hnd⟩)

/-- C3 amended witness: the bound and duplicate-freedom at the concrete
fresh pair. -/
theorem recent_opponents_bounded_witness :
    (update_elo poemA poemB "a").1.recent_opponents.length ≤ RECENT_OPPONENT_MEMORY ∧
    (update_elo poemA poemB "a").1.recent_opponents.Nodup :=
  ⟨(recent_opponents_bounded poemA poemB "a").2.2.1,
   (recent_opponents_bounded poemA poemB "a").2.2.2.2.1 (by decide) (by decide)⟩

/-- C5 counterexample: for the empty corpus and one requested pair,
`select_pairs` does not return the empty set — the first draw cannot be
serviced (`random.choices` raises on an empty population), modelled by the
`none` result. -/
theorem select_pairs_empty_corpus_counterexample :
    select_pairs ([] : List Poem) 1 (fun _ => (0, 0)) = none ∧
    select_pairs ([] : List Poem) 1 (fun _ => (0, 0)) ≠ some [] := by
  have h0 : select_pairs ([] : List Poem) 1 (fun _ => (0, 0)) = none := rfl
  refine ⟨h0, ?_⟩
  rw [h0]
  simp

/-- C5 amended: a request for 0 pairs returns the empty list immediately for
any corpus; a corpus of size 1 returns the empty list for any request — only
after exhausting the attempt budget, since every draw yields the same index
twice; and a corpus of size 0 with a positive request fails at the first
draw (`random.choices` raises on an empty population) rather than returning
the empty set. -/
theorem select_pairs_small_corpus :
    (∀ (poems : List Poem) (g : ℕ → ℕ × ℕ), select_pairs poems 0 g = some []) ∧
    (∀ (p : Poem) (n : ℕ) (g : ℕ → ℕ × ℕ), (∀ i, g i = (0, 0)) →
      select_pairs [p] n g = some []) ∧
    (∀ (n : ℕ) (g : ℕ → ℕ × ℕ), 1 ≤ n → select_pairs [] n g = none) := by
  refine ⟨?_, ?_, ?_⟩
  · intro poems g
    rfl
  · intro p n g hg
    have h := selectLoop_singleton p n g (n * 20) hg (n * 20) []
    simpa [select_pairs] using h
  · intro n g hn
    obtain ⟨f, hf⟩ : ∃ f, n * 20 = f + 1 := ⟨n * 20 - 1, by omega⟩
    rw [select_pairs, hf]
    simp only [selectLoop]
    split
    · rename_i hcond
      exfalso
      simp at hcond
      omega
    · rfl

/-- C5 amended witness: the three clauses at concrete inputs. -/
theorem select_pairs_small_corpus_witness :
    select_pairs [poemA] 3 (fun _ => (0, 0)) = some [] ∧
    select_pairs ([] : List Poem) 2 (fun _ => (0, 0)) = none :=
  ⟨select_pairs_small_corpus.2.1 poemA 3 (fun _ => (0, 0)) (fun _ => rfl),
   select_pairs_small_corpus.2.2 2 (fun _ => (0, 0)) (by norm_num)⟩

/-- C6: `select_pairs` returns at most `n` ordered pairs; under distinct item
ids no returned pair relates an item to itself, and no returned pair `(A, B)`
has `B.id` in `A.recent_opponents` as of the time of the call; and the result
depends only on the first `20 * n` random draws — the attempt budget. -/
theorem select_pairs_output_valid :
    (∀ (poems : List Poem) (n : ℕ) (g : ℕ → ℕ × ℕ) (res : List (Poem × Poem)),
      select_pairs poems n g = some res → res.length ≤ n) ∧
    (∀ (poems : List Poem) (n : ℕ) (g : ℕ → ℕ × ℕ) (res : List (Poem × Poem)),
      (poems.map Poem.id).Nodup → select_pairs poems n g = some res →
      ∀ pr ∈ res, pr.1.id ≠ pr.2.id ∧ pr.2.id ∉ pr.1.recent_opponents) ∧
    (∀ (poems : List Poem) (n : ℕ) (g g' : ℕ → ℕ × ℕ),
      (∀ i, i < n * 20 → g i = g' i) →
      select_pairs poems n g = select_pairs poems n g') := by
  refine ⟨?_, ?_, ?_⟩
  · intro poems n g res h
    exact selectLoop_length poems n g (n * 20) (n * 20) [] res (by simp) h
  · intro poems n g res hids h pr hpr
    exact selectLoop_mem poems n g (n * 20) hids (n * 20) [] res h (by simp) pr hpr
  · intro poems n g g' hg
    exact selectLoop_congr poems n g g' (n * 20) hg (n * 20) [] le_rfl

/-- C6 witness: the pair validity clauses at a concrete two-item corpus with
a concrete draw oracle. -/
theorem select_pairs_output_valid_witness :
    [(poemA, poemB)].length ≤ 1 ∧
    (poemA.id ≠ poemB.id ∧ poemB.id ∉ poemA.recent_opponents) := by
  have hsel : select_pairs [poemA, poemB] 1 (fun _ => (0, 1)) = some [(poemA, poemB)] := rfl
  refine ⟨select_pairs_output_valid.1 [poemA, poemB] 1 (fun _ => (0, 1)) [(poemA, poemB)]
    hsel, ?_⟩
  exact select_pairs_output_valid.2.1 [poemA, poemB] 1 (fun _ => (0, 1)) [(poemA, poemB)]
    (by decide) hsel (poemA, poemB) (List.mem_singleton.mpr rfl)

/-- C8: for a dimension `d` present in the stored averages, one
`update_dim_averages` call with a score list containing `(d, val)` (distinct
keys) stores `dimNext p.matches prev val` — i.e. `round2 val` when the
dimension was unset and `round2 ((prev * (n-1) + val) / n)` with
`n = p.matches` (the just-incremented match count) otherwise; `round2` of an
integer score is that score exactly; and two integer scores `v1, v2` recorded
at match counts 1 and 2 yield `round2 ((v1 + v2) / 2)`. -/
theorem dim_running_mean :
    (∀ (p : Poem) (scores : List (String × ℚ)) (d : String) (val : ℚ) (prev : Option ℚ),
      (scores.map Prod.fst).Nodup → (d, val) ∈ scores →
      (p.dim_averages.getD default_dim_averages).lookup d = some prev →
      ((update_dim_averages p scores).dim_averages.getD default_dim_averages).lookup d =
        some (some (dimNext p.matches prev val))) ∧
    (∀ (n : ℕ) (k : ℤ), dimNext n none (k : ℚ) = (k : ℚ)) ∧
    (∀ (p : Poem) (d : String) (v1 v2 : ℤ), p.matches = 1 →
      (p.dim_averages.getD default_dim_averages).lookup d = some none →
      ((update_dim_averages
          { update_dim_averages p [(d, (v1 : ℚ))] with «matches» := 2 }
          [(d, (v2 : ℚ))]).dim_averages.getD default_dim_averages).lookup d =
        some (some (round2 (((v1 : ℚ) + (v2 : ℚ)) / 2)))) := by
  have step : ∀ (p : Poem) (scores : List (String × ℚ)) (d : String) (val : ℚ)
      (prev : Option ℚ), (scores.map Prod.fst).Nodup → (d, val) ∈ scores →
      (p.dim_averages.getD default_dim_averages).lookup d = some prev →
      ((update_dim_averages p scores).dim_averages.getD default_dim_averages).lookup d =
        some (some (dimNext p.matches prev val)) := by
    intro p scores d val prev hnd hmem hlk
    rw [update_dim_averages_eq_dimFold]
    simp only [Option.getD_some]
    exact dimFold_lookup p.matches scores _ d val prev hnd hmem hlk
  refine ⟨step, ?_, ?_⟩
  · intro n k
    simp [dimNext, round2_intCast]
  · intro p d v1 v2 hm hlk
    have h1 := step p [(d, (v1 : ℚ))] d (v1 : ℚ) none (by simp) (by simp) hlk
    rw [hm] at h1
    have hval1 : dimNext 1 none (v1 : ℚ) = (v1 : ℚ) := by
      simp [dimNext, round2_intCast]
    rw [hval1] at h1
    have h2 := step { update_dim_averages p [(d, (v1 : ℚ))] with «matches» := 2 }
      [(d, (v2 : ℚ))] d (v2 : ℚ) (some (v1 : ℚ)) (by simp) (by simp) h1
    rw [h2]
    have : dimNext 2 (some (v1 : ℚ)) (v2 : ℚ) = round2 (((v1 : ℚ) + (v2 : ℚ)) / 2) := by
      unfold dimNext
      norm_num
    rw [this]

/-- C8 witness: the step law and the integer-exactness clause instantiated at
a fresh item with one match and a single score of 4 on `"cut"`. -/
theorem dim_running_mean_witness :
    ((update_dim_averages { freshPoem "w" with «matches» := 1 }
        [("cut", 4)]).dim_averages.getD default_dim_averages).lookup "cut" =
      some (some (dimNext 1 none 4)) ∧
    dimNext 1 none ((4 : ℤ) : ℚ) = ((4 : ℤ) : ℚ) := by
  constructor
  · exact dim_running_mean.1 { freshPoem "w" with «matches» := 1 } [("cut", 4)] "cut" 4 none
      (by decide) (by simp) (by decide)
  · exact dim_running_mean.2.1 1 4

/-- C10: `update_dim_averages` never changes the key set of the stored
averages — it stays the key set of the installed dict (the six fixed
dimensions when the field was unset); in particular updating a fresh item
with a score map containing only the judge client's extra `"total"` key
leaves the key set at exactly the six dimensions and creates no `"total"`
entry. -/
theorem dim_averages_key_invariant :
    (∀ (p : Poem) (scores : List (String × ℚ)),
      ((update_dim_averages p scores).dim_averages.getD []).map Prod.fst =
        (p.dim_averages.getD default_dim_averages).map Prod.fst) ∧
    default_dim_averages.map Prod.fst = dims ∧
    ((update_dim_averages (freshPoem "x") [("total", 18)]).dim_averages.getD
      []).lookup "total" = none ∧
    ((update_dim_averages (freshPoem "x") [("total", 18)]).dim_averages.getD
      []).map Prod.fst = dims := by
  refine ⟨?_, rfl, ?_, ?_⟩
  · intro p scores
    rw [update_dim_averages_eq_dimFold]
    simp only [Option.getD_some]
    exact dimFold_keys p.matches scores _
  · decide
  · decide

/-- C1: the end-to-end single-match scenario — two fresh 1500-rated items,
one judged match with winner `"a"` and every dimension scored 3 on both
sides, yields ratings 1516.0 and 1484.0, one win and one match for A, one
loss and one match for B, and a stored `"cut"` average of 3.0 on both. -/
theorem elo_end_to_end_single_match :
    (update_dim_averages (update_elo poemA poemB "a").1 scoresAll3).elo = 1516 ∧
    (update_dim_averages (update_elo poemA poemB "a").2 scoresAll3).elo = 1484 ∧
    (update_dim_averages (update_elo poemA poemB "a").1 scoresAll3).wins = 1 ∧
    (update_dim_averages (update_elo poemA poemB "a").1 scoresAll3).matches = 1 ∧
    (update_dim_averages (update_elo poemA poemB "a").2 scoresAll3).losses = 1 ∧
    (update_dim_averages (update_elo poemA poemB "a").2 scoresAll3).matches = 1 ∧
    ((update_dim_averages (update_elo poemA poemB "a").1 scoresAll3).dim_averages.getD
      []).lookup "cut" = some (some 3) ∧
    ((update_dim_averages (update_elo poemA poemB "a").2 scoresAll3).dim_averages.getD
      []).lookup "cut" = some (some 3) := by
  have hA_matches : (update_elo poemA poemB "a").1.matches = 1 := by
    rw [update_elo_fst_matches]
    rfl
  have hB_matches : (update_elo poemA poemB "a").2.matches = 1 := by
    rw [update_elo_snd_matches]
    rfl
  have hA_dims : (update_elo poemA poemB "a").1.dim_averages = none := by
    simp [update_elo, applyOutcome_dim_averages, poemA, freshPoem]
  have hB_dims : (update_elo poemA poemB "a").2.dim_averages = none := by
    simp [update_elo, applyOutcome_dim_averages, poemB, freshPoem]
  refine ⟨?_, ?_, ?_, ?_, ?_, ?_, ?_, ?_⟩
  · rw [update_dim_averages_elo]
    simp [update_elo, applyOutcome_elo, poemA, poemB, freshPoem, k_factor, K_FACTOR_NEW,
      expected_score_self]
    norm_num [round1, round_eq]
  · rw [update_dim_averages_elo]
    simp [update_elo, applyOutcome_elo, poemA, poemB, freshPoem, k_factor, K_FACTOR_NEW,
      expected_score_self]
    norm_num [round1, round_eq]
  · rw [update_dim_averages_wins]
    norm_num [update_elo, applyOutcome, poemA, freshPoem]
  · rw [update_dim_averages_matches]
    exact hA_matches
  · rw [update_dim_averages_losses]
    norm_num [update_elo, applyOutcome, poemB, freshPoem]
  · rw [update_dim_averages_matches]
    exact hB_matches
  · simp only [update_dim_averages, hA_matches, hA_dims]
    norm_num [scoresAll3, dims, default_dim_averages, dimStep, dimNext, List.lookup]
    have h := round2_intCast 3
    norm_num at h
    simp [h]
  · simp only [update_dim_averages, hB_matches, hB_dims]
    norm_num [scoresAll3, dims, default_dim_averages, dimStep, dimNext, List.lookup]
    have h := round2_intCast 3
    norm_num at h
    simp [h]

/-- C4 amended: `validate_scores` accepts exactly the responses where both
sides are present, every one of the six dimensions carries a numeric value in
`[1, 5]` (integrality is not required — `isinstance(val, (int, float))`), and
the winner is one of a/b/draw; the concrete examples of the claim behave as
stated. -/
theorem validate_scores_characterization :
    (∀ data : JudgeData, validate_scores data = true ↔ claimAcceptsNumeric data) ∧
    validate_scores goodJudgeData = true ∧
    validate_scores missingDimJudgeData = false ∧
    validate_scores value6JudgeData = false ∧
    validate_scores winnerCJudgeData = false := by
  refine ⟨?_, by decide, by decide, by decide, by decide⟩
  intro data
  simp only [validate_scores, Bool.and_eq_true, validSide_iff, winnerOk_iff,
    claimAcceptsNumeric]
  tauto

/-- C4 counterexample: the claim's characterization with integer dimension
values is false — the response scoring `"cut"` as the non-integer 5/2 is
accepted by `validate_scores` although no integer-valued reading of it
exists. -/
theorem validate_scores_integer_counterexample :
    validate_scores halfScoreJudgeData = true ∧ ¬ claimAcceptsInt halfScoreJudgeData := by
  constructor
  · simp only [validate_scores, halfScoreJudgeData, Bool.and_eq_true]
    refine ⟨⟨?_, ?_⟩, ?_⟩
    · simp [validSide, dims, sideWith, List.lookup]
      norm_num
    · decide
    · decide
  · rintro ⟨⟨m, hm, hint⟩, -, -⟩
    injection hm with hmm
    subst hmm
    obtain ⟨k, hk, -, -⟩ := hint "cut" (by decide)
    have hlk : (sideWith "cut" (JsonVal.num (5 / 2))).lookup "cut" =
        some (JsonVal.num (5 / 2)) := by
      simp [sideWith, dims, lookup_cons_ite]
    rw [hlk] at hk
    injection hk with hkv
    injection hkv with hq
    have h2 : (2 : ℚ) * (k : ℚ) = 5 := by rw [← hq]; ring
    have h3 : (2 * k : ℤ) = 5 := by exact_mod_cast h2
    omega

/-- C9: a judge failure is isolated and non-fatal — `judge_pair` returns
`none` when every attempt fails validation, returns a verdict only when some
attempt validated, and in the session loop a `none` result leaves the pair's
items completely unchanged, counts one error and continues with the remaining
pairs; only on a verdict are the ELO update and the outcome tally applied. -/
theorem judge_failure_isolation :
    (∀ (attempts : List (Option JudgeData)),
      (∀ d, some d ∈ attempts → validate_scores d = false) →
      judge_pair attempts = none) ∧
    (∀ (attempts : List (Option JudgeData)) (v : Verdict), judge_pair attempts = some v →
      ∃ d, some d ∈ attempts ∧ validate_scores d = true ∧ toVerdict d = some v) ∧
    (∀ (ab : Poem × Poem) (rest : List ((Poem × Poem) × Option Verdict))
      (st : SessionStats),
      run_session ((ab, none) :: rest) st =
        (ab :: (run_session rest { st with errors := st.errors + 1 }).1,
          (run_session rest { st with errors := st.errors + 1 }).2)) ∧
    (∀ (ab : Poem × Poem) (v : Verdict) (st : SessionStats),
      (process_pair ab (some v) st).2.errors = st.errors ∧
      (process_pair ab (some v) st).1.1.matches = ab.1.matches + 1 ∧
      (process_pair ab (some v) st).1.2.matches = ab.2.matches + 1 ∧
      (process_pair ab (some v) st).2.wins_a + (process_pair ab (some v) st).2.wins_b +
          (process_pair ab (some v) st).2.draws =
        st.wins_a + st.wins_b + st.draws + 1) := by
  refine ⟨?_, ?_, ?_, ?_⟩
  · intro attempts h
    induction attempts with
    | nil => rfl
    | cons r rest ih =>
        cases r with
        | none =>
            simp only [judge_pair]
            exact ih fun d hd => h d (List.mem_cons_of_mem _ hd)
        | some d =>
            simp only [judge_pair]
            rw [if_neg (by simp [h d (List.mem_cons_self _ _)])]
            exact ih fun d' hd => h d' (List.mem_cons_of_mem _ hd)
  · intro attempts v h
    induction attempts with
    | nil => simp [judge_pair] at h
    | cons r rest ih =>
        cases r with
        | none =>
            simp only [judge_pair] at h
            obtain ⟨d, hd1, hd2, hd3⟩ := ih h
            exact ⟨d, List.mem_cons_of_mem _ hd1, hd2, hd3⟩
        | some d =>
            simp only [judge_pair] at h
            by_cases hv : validate_scores d = true
            · rw [if_pos hv] at h
              exact ⟨d, List.mem_cons_self _ _, hv, h⟩
            · rw [if_neg hv] at h
              obtain ⟨d', hd1, hd2, hd3⟩ := ih h
              exact ⟨d', List.mem_cons_of_mem _ hd1, hd2, hd3⟩
  · intro ab rest st
    simp only [run_session, process_pair]
  · intro ab v st
    refine ⟨?_, ?_, ?_, ?_⟩
    · simp only [process_pair]
      split_ifs <;> rfl
    · simp [process_pair, update_dim_averages_matches, update_elo_fst_matches]
    · simp [process_pair, update_dim_averages_matches, update_elo_snd_matches]
    · simp only [process_pair]
      split_ifs <;> simp <;> omega

/-- C9 witness: a 3-attempt judge run whose responses all fail validation
yields a failure, and the session loop over one such failed pair leaves the
pair untouched and counts one error. -/
theorem judge_failure_isolation_witness :
    judge_pair [some winnerCJudgeData, none, some value6JudgeData] = none ∧
    run_session [((poemA, poemB), none)] ⟨0, 0, 0, 0⟩ =
      ([(poemA, poemB)], ⟨0, 0, 0, 1⟩) := by
  constructor
  · refine judge_failure_isolation.1 _ ?_
    intro d hd
    simp at hd
    rcases hd with rfl | rfl
    · decide
    · decide
  · rw [judge_failure_isolation.2.2.1 (poemA, poemB) [] ⟨0, 0, 0, 0⟩]
    rfl

end RatePoems
